import Mathlib

/-!
Shallow embedding of `tools/gen_spleen.py` (aurora-kernel): a generator that
converts a Spleen 8x16 font source (BDF or legacy DOS ASM) into a C table of
256 glyphs x 16 row bytes.

Files are modelled as `Option (List (List Char))`: `none` means the file does
not exist, `some lines` is the result of `read_text().splitlines()`.  Paths
are plain strings; only the extension-related behaviour of `pathlib` is
modelled (see `pySuffix`).
-/

set_option maxRecDepth 10000

namespace GenSpleen

/-- One glyph: a list of row bytes (each < 256); the generator invariant is
that emitted glyphs have exactly 16 rows. -/
abbrev Glyph := List Nat

/-- Python whitespace characters relevant to `str.strip` / `str.split`
(space, tab, newline, carriage return, vertical tab, form feed). -/
def isPySpace (c : Char) : Bool :=
  c == ' ' || c == '\t' || c == '\n' || c == '\r' || c == '\x0b' || c == '\x0c'

/-- Python `str.strip()`: remove leading and trailing whitespace. -/
def strip (s : List Char) : List Char :=
  ((s.dropWhile isPySpace).reverse.dropWhile isPySpace).reverse

/-- Accumulator-based worker for `pysplit`. -/
def pysplitAux : List Char → List Char → List (List Char)
  | [], acc => if acc.isEmpty then [] else [acc.reverse]
  | c :: cs, acc =>
    if isPySpace c then
      if acc.isEmpty then pysplitAux cs [] else acc.reverse :: pysplitAux cs []
    else
      pysplitAux cs (c :: acc)

/-- Python `str.split()` with no argument: split on runs of whitespace,
dropping empty tokens. -/
def pysplit (s : List Char) : List (List Char) :=
  pysplitAux s []

/-- Digit tail of a Python base-10 integer literal: digits, with single
underscores allowed between digits (as `int("1_0")` accepts). -/
def pyDigitsRest : List Char → Nat → Option Nat
  | [], acc => some acc
  | '_' :: c :: cs, acc =>
    if c.isDigit then pyDigitsRest cs (10 * acc + (c.toNat - 48)) else none
  | ['_'], _ => none
  | c :: cs, acc =>
    if c.isDigit then pyDigitsRest cs (10 * acc + (c.toNat - 48)) else none

/-- Nonempty base-10 digit sequence. -/
def pyDigits : List Char → Option Nat
  | c :: cs => if c.isDigit then pyDigitsRest cs (c.toNat - 48) else none
  | [] => none

/-- Python `int(token)` on a whitespace-free token: optional sign followed by
base-10 digits (with single internal underscores); `none` models the
`ValueError` that the except clause in the source swallows.  Unicode digits
beyond ASCII are not modelled. -/
def pyIntTok : List Char → Option Int
  | '+' :: cs => (pyDigits cs).map Int.ofNat
  | '-' :: cs => (pyDigits cs).map (fun n => -(Int.ofNat n : Int))
  | cs => (pyDigits cs).map Int.ofNat

/-- A binary digit, as matched by `[01]` in `ROW_RE`. -/
def isBit (c : Char) : Bool :=
  c == '0' || c == '1'

/-- Embeds `int(m.group(1), 2)`: value of a list of 0/1 digits, most significant
bit first. -/
def bitsVal (ds : List Char) : Nat :=
  ds.foldl (fun a c => 2 * a + (if c = '1' then 1 else 0)) 0

/-- Embeds `ROW_RE.match(line)` followed by `int(group(1), 2)`: the regex is
`^\s*db\s*([01]\x7b8\x7d)b`, i.e. optional whitespace, the letters `db`,
optional whitespace, exactly eight binary digits, then the letter `b`
(the rest of the line unconstrained). -/
def rowMatch (line : List Char) : Option Nat :=
  match line.dropWhile isPySpace with
  | 'd' :: 'b' :: r =>
    let r2 := r.dropWhile isPySpace
    if (r2.take 8).length = 8 ∧ (r2.take 8).all isBit ∧ (r2.drop 8).head? = some 'b'
    then some (bitsVal (r2.take 8))
    else none
  | _ => none

/-- Embeds `ASM_LABEL`, the marker text spleen: . -/
def asmLabel : List Char := "spleen:".data

/-- Lines 32-36 of the source: skip lines until the first line whose stripped
form starts with the label, and return the lines after it; `none` when no
line carries the label (in the source `in_table` then stays `False` and the
collected row list stays empty). -/
def afterMarker : List (List Char) → Option (List (List Char))
  | [] => none
  | l :: ls =>
    if asmLabel.isPrefixOf (strip l) then some ls else afterMarker ls

/-- Embeds `parse_asm` (source lines 26-45): `none` if the file does not exist; scan
for the label; collect `ROW_RE` matches, stopping at 4096 (the break statement of the source, here `take 4096`); `none` unless exactly 4096 rows were collected;
otherwise slice into 256 glyphs of 16 rows (`rows[i*16:(i+1)*16]`). -/
def parse_asm (file : Option (List (List Char))) : Option (List Glyph) :=
  match file with
  | none => none
  | some lines =>
    match afterMarker lines with
    | none => none
    | some rest =>
      let rows := (rest.filterMap rowMatch).take 4096
      if rows.length = 4096 then
        some ((List.range 256).map (fun i => (rows.drop (i * 16)).take 16))
      else none

/-- Value of a hexadecimal digit character (only applied to validated rows). -/
def hexDigitVal (c : Char) : Nat :=
  if c.isDigit then c.toNat - 48
  else if 'a' ≤ c ∧ c ≤ 'f' then c.toNat - 87
  else if 'A' ≤ c ∧ c ≤ 'F' then c.toNat - 55
  else 0

/-- Embeds `int(r, 16)` on a string of hexadecimal digits. -/
def hexVal (r : List Char) : Nat :=
  r.foldl (fun a c => 16 * a + hexDigitVal c) 0

/-- Matches the character class [0-9A-Fa-f]. -/
def isHexDigitChar (c : Char) : Bool :=
  c.isDigit || ('A' ≤ c && c ≤ 'F') || ('a' ≤ c && c ≤ 'f')

/-- Embeds the fullmatch against the two-hex-digit pattern: exactly two hex digits. -/
def isHex2 (l : List Char) : Bool :=
  l.length == 2 && l.all isHexDigitChar

/-- Source lines 66-68: `[int(r, 16) & 0xFF for r in bitmap_rows[:16]]`, then
zero-pad to 16 rows. -/
def finalizeGlyph (rows : List (List Char)) : Glyph :=
  let rs := (rows.take 16).map (fun r => hexVal r % 256)
  rs ++ List.replicate (16 - rs.length) 0

/-- Embeds `glyphs[enc] = rows` on a Python dict, modelled as an insertion-ordered
association list: overwrite an existing key in place, else append. -/
def dictInsert (d : List (Int × Glyph)) (k : Int) (v : Glyph) : List (Int × Glyph) :=
  match d with
  | [] => [(k, v)]
  | (k', v') :: t => if k' = k then (k, v) :: t else (k', v') :: dictInsert t k v

/-- Embeds dict lookup (`cp in bdf_glyphs` and `bdf_glyphs[cp]`). -/
def dictFind (d : List (Int × Glyph)) (k : Int) : Option Glyph :=
  match d with
  | [] => none
  | (k', v) :: t => if k' = k then some v else dictFind t k

/-- The mutable locals of the loop in `parse_bdf`. -/
structure BdfSt where
  glyphs : List (Int × Glyph)
  enc : Option Int
  collecting : Bool
  rows : List (List Char)
deriving DecidableEq

/-- Initial state of `parse_bdf` (source lines 49-52). -/
def initSt : BdfSt := ⟨[], none, false, []⟩

/-- One iteration of the loop in `parse_bdf` (source lines 53-75): strip the raw
line, then dispatch on `ENCODING `/`BITMAP`/`ENDCHAR`/hex-row. -/
def bdfStep (s : BdfSt) (raw : List Char) : BdfSt :=
  let line := strip raw
  if "ENCODING ".data.isPrefixOf line then
    { s with enc := match (pysplit line)[1]? with
                    | some t => pyIntTok t
                    | none => none }
  else if line = "BITMAP".data then
    { s with collecting := true, rows := [] }
  else if line = "ENDCHAR".data then
    { glyphs := match s.enc with
                | some e => if s.collecting then dictInsert s.glyphs e (finalizeGlyph s.rows)
                            else s.glyphs
                | none => s.glyphs
      enc := none
      collecting := false
      rows := [] }
  else if s.collecting then
    (if isHex2 line then { s with rows := s.rows ++ [line] } else s)
  else s

/-- Runs the `parse_bdf` loop over a list of raw lines. -/
def runLines (ls : List (List Char)) (s : BdfSt) : BdfSt :=
  ls.foldl bdfStep s

/-- Embeds `parse_bdf` (source lines 47-76): the glyph dict after the loop. -/
def parse_bdf (lines : List (List Char)) : List (Int × Glyph) :=
  (runLines lines initSt).glyphs

/-- Last path component: strip trailing slashes, then take what follows the
last slash.  (the component normalisation of pathlib for dot components is not modelled;
the generator is invoked on plain file paths.) -/
def lastComponent (s : List Char) : List Char :=
  ((s.reverse.dropWhile (· = '/')).takeWhile (· ≠ '/')).reverse

/-- Index of the last `.` in a name, if any. -/
def rfindDot (nm : List Char) : Option Nat :=
  match nm.reverse.findIdx? (· = '.') with
  | some j => some (nm.length - 1 - j)
  | none => none

/-- Embeds `pathlib.PurePath.suffix`: the part of the name from its last dot on,
empty unless that dot is at an index `i` with `0 < i < len(name) - 1`. -/
def pySuffix (s : List Char) : List Char :=
  let nm := lastComponent s
  match rfindDot nm with
  | some i => if 0 < i ∧ i + 1 < nm.length then nm.drop i else []
  | none => []

/-- Embeds `src_path.suffix.lower()` (ASCII lowering, as all extensions here are). -/
def lowerExt (srcPath : String) : List Char :=
  (pySuffix srcPath.data).map Char.toLower

/-- Python truthiness of `asm_fallback` (`None` falsy, a list falsy iff
empty), as used on source lines 87 and 91. -/
def pyTruthyTable : Option (List Glyph) → Bool
  | some t => !t.isEmpty
  | none => false

/-- Embeds `build_glyph_table` (source lines 78-98).  `srcFile`/`fbFile` are the
contents of `src_path`/`maybe_asm` (`none` = missing).  `.error` models
`raise SystemExit(msg)`; the `.bdf` branch reading a missing file models the
uncaught `FileNotFoundError` from `read_text`.  (`maybe_asm` is always a
truthy `Path` when called from `main`, so the fallback is always parsed.) -/
def build_glyph_table (srcPath : String) (srcFile fbFile : Option (List (List Char))) :
    Except String (List Glyph × String) :=
  let ext := lowerExt srcPath
  if ext = ".bdf".data then
    match srcFile with
    | none => .error "FileNotFoundError"
    | some lines =>
      let bdfGlyphs := parse_bdf lines
      let fallback := parse_asm fbFile
      let table := (List.range 256).map (fun cp =>
        match dictFind bdfGlyphs (Int.ofNat cp) with
        | some g => g
        | none =>
          match fallback with
          | some t => if pyTruthyTable (some t) = true ∧ cp < t.length then t.getD cp []
                      else List.replicate 16 0
          | none => List.replicate 16 0)
      .ok (table, srcPath ++ " (BDF)" ++ (if pyTruthyTable fallback then " + ASM fallback" else ""))
  else if ext = ".asm".data then
    match parse_asm srcFile with
    | none => .error "Failed to parse ASM font table"
    | some t => .ok (t, srcPath ++ " (ASM)")
  else
    .error ("Unsupported source extension: " ++ String.mk ext)

/-- Uppercase hexadecimal digit character. -/
def hexDigitCharU (n : Nat) : Char :=
  if n < 10 then Char.ofNat (48 + n) else Char.ofNat (55 + n)

/-- Hexadecimal digits of `n`, most significant first. -/
def hexDigitsU (n : Nat) : List Char :=
  if _h : n < 16 then [hexDigitCharU n]
  else hexDigitsU (n / 16) ++ [hexDigitCharU (n % 16)]
decreasing_by exact Nat.div_lt_self (by omega) (by omega)

/-- Embeds the Python format spec 02X: uppercase hex, zero-padded to width 2. -/
def fmt02X (n : Nat) : String :=
  let ds := hexDigitsU n
  String.mk (List.replicate (2 - ds.length) '0' ++ ds)

/-- Embeds `HEADER.format` (source lines 20-24). -/
def headerText (sourceDesc : String) : String :=
  "/* Auto-generated Spleen 8x16 font table\n * Source: " ++ sourceDesc ++
  "\n * Generation: tools/gen_spleen.py (BSD 2-Clause upstream font)\n * Do not edit manually. */\n"

/-- One table row (source line 106). -/
def emitRow (idx : Nat) (g : Glyph) : String :=
  "    /* 0x" ++ fmt02X idx ++ " */ \x7b" ++
  String.intercalate ", " (g.map (fun b => "0x" ++ fmt02X b)) ++ "\x7d,\n"

/-- Embeds `emit_c` (source lines 100-107): the full text written to the output
file (opened with newline set to LF, so line feeds are written verbatim). -/
def emit_c (glyphs : List Glyph) (sourceDesc : String) : String :=
  headerText sourceDesc ++
  "#include \"../aurora.h\"\n#include \"../include/font.h\"\n\n" ++
  "const unsigned char g_Spleen8x16[AURORA_FONT_GLYPHS][AURORA_FONT_HEIGHT] = \x7b\n" ++
  String.join ((glyphs.enum).map (fun p => emitRow p.1 p.2)) ++
  "\x7d;\nBOOL FontInitialize(void)\x7b return TRUE; \x7d\n"

/-- The usage message printed when fewer than two positional arguments are
given. -/
def usageMsg : String := "Usage: gen_spleen.py <spleen.\x7basm|bdf\x7d> <out.c> [fallback_asm]"

/-- Default fallback path (source line 115). -/
def defaultFallback : String := "external/spleen/dos/spleen.asm"

/-- Observable outcome of one run: the process exit code, the diagnostic (a
usage or fatal message), and the bytes written to the output file (`none`
when the output file was never opened). -/
structure RunResult where
  exitCode : Nat
  diag : Option String
  output : Option String
deriving DecidableEq

/-- Embeds `main` plus the SystemExit wrapper (source lines
109-121).  `argv` is `sys.argv` (program name included); `fs` maps a path to
its contents.  A `SystemExit` raised with a string message exits with
status 1; `build_glyph_table` runs before the output file is opened, so on
the error path nothing is written. -/
def mainRun (argv : List String) (fs : String → Option (List (List Char))) : RunResult :=
  match argv with
  | _prog :: src :: _out :: rest =>
    let fb := match rest with
              | f :: _ => f
              | [] => defaultFallback
    (match build_glyph_table src (fs src) (fs fb) with
     | .error msg => ⟨1, some msg, none⟩
     | .ok (g, d) => ⟨0, none, some (emit_c g d)⟩)
  | _ => ⟨1, some usageMsg, none⟩

/-- A BDF row line of eight bits written as `db`-literal text, used to state
the most-significant-bit-first reading of `ROW_RE` rows. -/
def mkRowLine (ds : Fin 8 → Bool) : List Char :=
  'd' :: 'b' :: ' ' :: (List.ofFn (fun j => if ds j then '1' else '0')) ++ ['b']

/-- `ENCODING n` line for building concrete BDF inputs. -/
def encLine (n : Nat) : List Char :=
  ("ENCODING " ++ Nat.repr n).data

/-- One minimal BDF character definition for codepoint `n` (empty bitmap). -/
def bdfBlock (n : Nat) : List (List Char) :=
  [encLine n, "BITMAP".data, "ENDCHAR".data]

/-- A BDF input defining every codepoint 0-255 (each glyph all-zero). -/
def fullBdfLines : List (List Char) :=
  (List.range 256).flatMap bdfBlock

/-- A legacy ASM input: the label line, then 4096 all-zero rows. -/
def fullAsmLines : List (List Char) :=
  "spleen:".data :: List.replicate 4096 "db 00000000b".data

/-- The dict that parsing `fullBdfLines` produces: codepoints `0..n-1`, each
mapped to the empty-bitmap glyph, inserted in order. -/
def bdfDict : Nat → List (Int × Glyph)
  | 0 => []
  | n + 1 => dictInsert (bdfDict n) (Int.ofNat n) (finalizeGlyph [])

/-! ### General lemmas about the embedded operations -/

theorem filterMap_replicate_some {α β : Type} (f : α → Option β) (a : α) (b : β)
    (h : f a = some b) : ∀ n, (List.replicate n a).filterMap f = List.replicate n b := by
  intro n
  induction n with
  | zero => rfl
  | succ n ih => simp [List.replicate_succ, List.filterMap_cons, h, ih]

theorem parse_asm_some_spec {f : Option (List (List Char))} {t : List Glyph}
    (h : parse_asm f = some t) : t.length = 256 ∧ ∀ g ∈ t, g.length = 16 := by
  match f with
  | none => simp [parse_asm] at h
  | some lines =>
    match hm : afterMarker lines with
    | none =>
      simp only [parse_asm, hm] at h
      exact absurd h (by simp)
    | some rest =>
      simp only [parse_asm, hm] at h
      by_cases hl : ((rest.filterMap rowMatch).take 4096).length = 4096
      · rw [if_pos hl] at h
        obtain rfl := Option.some.inj h
        refine ⟨by simp, ?_⟩
        intro g hg
        obtain ⟨i, hi, rfl⟩ := List.mem_map.mp hg
        rw [List.mem_range] at hi
        have h1 : (((rest.filterMap rowMatch).take 4096).drop (i * 16)).length
            = 4096 - i * 16 := by
          rw [List.length_drop, hl]
        rw [List.length_take, h1]
        omega
      · rw [if_neg hl] at h
        exact absurd h (by simp)

theorem afterMarker_eq_none_iff (lines : List (List Char)) :
    afterMarker lines = none ↔ ∀ l ∈ lines, asmLabel.isPrefixOf (strip l) = false := by
  induction lines with
  | nil => simp [afterMarker]
  | cons l ls ih =>
    simp only [afterMarker, List.mem_cons]
    by_cases hl : asmLabel.isPrefixOf (strip l) = true
    · simp only [if_pos hl]
      constructor
      · intro h; exact absurd h (by simp)
      · intro h; rw [h l (Or.inl rfl)] at hl; cases hl
    · rw [if_neg hl, ih]
      simp only [Bool.not_eq_true] at hl
      constructor
      · rintro h x (rfl | hx)
        · exact hl
        · exact h x hx
      · intro h x hx
        exact h x (Or.inr hx)

/-! ### Claims about the legacy (ASM) parser -/

/-- Claim C2: for every legacy-format input whose text, after the first line
starting with the marker `spleen:`, contains at least 4096 lines matching the
8-binary-digit row literal, the legacy parser returns exactly 256 glyphs of
16 bytes each, where glyph `i` byte `j` equals the value of matched row
`(i*16 + j)`, and each matched row byte value is the binary integer formed by its
eight 0/1 digits read most-significant bit first. -/
theorem C2_asm_rows (lines rest : List (List Char))
    (hm : afterMarker lines = some rest)
    (hr : 4096 ≤ (rest.filterMap rowMatch).length) :
    parse_asm (some lines) ≠ none ∧
    (∀ g, parse_asm (some lines) = some g →
      g.length = 256 ∧
      (∀ i, i < 256 → (g.getD i []).length = 16) ∧
      (∀ i j, i < 256 → j < 16 →
        (g.getD i []).getD j 0 = (rest.filterMap rowMatch).getD (i * 16 + j) 0)) ∧
    (∀ ds : Fin 8 → Bool,
      rowMatch (mkRowLine ds) =
        some (∑ j : Fin 8, if ds j then 2 ^ (7 - (j : Nat)) else 0)) := by
  have hlen : ((rest.filterMap rowMatch).take 4096).length = 4096 := by
    rw [List.length_take]; omega
  have hsome : parse_asm (some lines) =
      some ((List.range 256).map
        (fun i => (((rest.filterMap rowMatch).take 4096).drop (i * 16)).take 16)) := by
    simp only [parse_asm, hm, hlen, if_pos]
  refine ⟨by rw [hsome]; simp, ?_, by decide⟩
  intro g hg
  rw [hsome] at hg
  obtain rfl := Option.some.inj hg
  refine ⟨by simp, ?_, ?_⟩
  · intro i hi
    have hmap : ((List.range 256).map
        (fun i => (((rest.filterMap rowMatch).take 4096).drop (i * 16)).take 16))[i]? =
        some ((((rest.filterMap rowMatch).take 4096).drop (i * 16)).take 16) := by
      simp [List.getElem?_map, List.getElem?_range, hi]
    rw [List.getD_eq_getElem?_getD, hmap, Option.getD_some, List.length_take,
      List.length_drop, hlen]
    omega
  · intro i j hi hj
    have hmap : ((List.range 256).map
        (fun i => (((rest.filterMap rowMatch).take 4096).drop (i * 16)).take 16))[i]? =
        some ((((rest.filterMap rowMatch).take 4096).drop (i * 16)).take 16) := by
      simp [List.getElem?_map, List.getElem?_range, hi]
    have hbyte : ((((rest.filterMap rowMatch).take 4096).drop (i * 16)).take 16).getD j 0
        = (rest.filterMap rowMatch).getD (i * 16 + j) 0 := by
      simp only [List.getD_eq_getElem?_getD, List.getElem?_take, List.getElem?_drop]
      rw [if_pos hj, if_pos (show i * 16 + j < 4096 by omega)]
    have hglyph : ((List.range 256).map
        (fun i => (((rest.filterMap rowMatch).take 4096).drop (i * 16)).take 16)).getD i []
        = (((rest.filterMap rowMatch).take 4096).drop (i * 16)).take 16 := by
      rw [List.getD_eq_getElem?_getD, hmap, Option.getD_some]
    rw [hglyph, hbyte]

/-- Witness for C2 at the 4096-row all-zero input. -/
theorem C2_asm_rows_witness : parse_asm (some fullAsmLines) ≠ none := by
  have hm : afterMarker fullAsmLines = some (List.replicate 4096 "db 00000000b".data) := rfl
  have hfm : (List.replicate 4096 "db 00000000b".data).filterMap rowMatch =
      List.replicate 4096 0 :=
    filterMap_replicate_some rowMatch _ 0 (by decide) 4096
  refine (C2_asm_rows fullAsmLines (List.replicate 4096 "db 00000000b".data) hm ?_).1
  rw [hfm, List.length_replicate]

/-- Claim C3: the legacy parser returns the no-data sentinel `none`, not an
error, in exactly these cases: the file does not exist, the start marker
`spleen:` never occurs, or fewer than 4096 matching rows occur after the
marker; in every other case it returns a full 256-glyph table (256 glyphs of
16 bytes each). -/
theorem C3_asm_none_iff (file : Option (List (List Char))) :
    (parse_asm file = none ↔
      file = none ∨
      (∃ lines, file = some lines ∧ ∀ l ∈ lines, asmLabel.isPrefixOf (strip l) = false) ∨
      (∃ lines rest, file = some lines ∧ afterMarker lines = some rest ∧
        (rest.filterMap rowMatch).length < 4096)) ∧
    (∀ g, parse_asm file = some g → g.length = 256 ∧ ∀ x ∈ g, x.length = 16) := by
  refine ⟨?_, fun g hg => parse_asm_some_spec hg⟩
  match file with
  | none => simp [parse_asm]
  | some lines =>
    simp only [Option.some.injEq, reduceCtorEq, false_or]
    match hm : afterMarker lines with
    | none =>
      simp only [parse_asm, hm]
      constructor
      · intro _
        exact Or.inl ⟨lines, rfl, (afterMarker_eq_none_iff lines).mp hm⟩
      · intro _; exact trivial
    | some rest =>
      simp only [parse_asm, hm]
      by_cases hl : ((rest.filterMap rowMatch).take 4096).length = 4096
      · rw [if_pos hl]
        simp only [reduceCtorEq, false_iff]
        rintro (⟨l', rfl, hnone⟩ | ⟨l', r', rfl, hr', hcount⟩)
        · rw [(afterMarker_eq_none_iff lines).mpr hnone] at hm
          exact absurd hm (by simp)
        · rw [hm] at hr'
          obtain rfl := Option.some.inj hr'
          rw [List.length_take] at hl
          omega
      · rw [if_neg hl]
        simp only [true_iff]
        refine Or.inr ⟨lines, rest, rfl, hm, ?_⟩
        rw [List.length_take] at hl
        omega

/-- Witness for C3: a file whose marker line is never followed by rows parses
to `none`. -/
theorem C3_asm_none_iff_witness :
    parse_asm (some ["spleen:".data, "db 11110000b".data]) = none := by
  refine (C3_asm_none_iff (some ["spleen:".data, "db 11110000b".data])).1.mpr ?_
  exact Or.inr (Or.inr ⟨_, ["db 11110000b".data], rfl, by decide, by decide⟩)

/-! ### Lemmas about the BDF parser state machine -/

theorem dictInsert_forall (P : Glyph → Prop) {d : List (Int × Glyph)} {k : Int} {v : Glyph}
    (hd : ∀ p ∈ d, P p.2) (hv : P v) : ∀ p ∈ dictInsert d k v, P p.2 := by
  induction d with
  | nil =>
    intro p hp
    simp only [dictInsert, List.mem_singleton] at hp
    rw [hp]
    exact hv
  | cons q t ih =>
    intro p hp
    simp only [dictInsert] at hp
    by_cases hk : q.1 = k
    · rw [if_pos hk] at hp
      rcases List.mem_cons.mp hp with hq | hmem
      · rw [hq]
        exact hv
      · exact hd p (List.mem_cons_of_mem q hmem)
    · rw [if_neg hk] at hp
      rcases List.mem_cons.mp hp with hq | hmem
      · rw [hq]
        exact hd q (List.mem_cons_self q t)
      · exact ih (fun x hx => hd x (List.mem_cons_of_mem q hx)) p hmem

theorem dictFind_mem {d : List (Int × Glyph)} {k : Int} {v : Glyph}
    (h : dictFind d k = some v) : (k, v) ∈ d := by
  induction d with
  | nil => simp [dictFind] at h
  | cons q t ih =>
    simp only [dictFind] at h
    by_cases hk : q.1 = k
    · rw [if_pos hk] at h
      obtain rfl := Option.some.inj h
      rw [← hk]
      exact List.mem_cons_self q t
    · rw [if_neg hk] at h
      exact List.mem_cons_of_mem q (ih h)

theorem finalizeGlyph_length (rows : List (List Char)) : (finalizeGlyph rows).length = 16 := by
  have h : ((rows.take 16).map (fun r => hexVal r % 256)).length ≤ 16 := by
    rw [List.length_map, List.length_take]
    omega
  simp only [finalizeGlyph, List.length_append, List.length_replicate]
  omega

theorem bdfStep_glyphs_len {s : BdfSt} (hs : ∀ p ∈ s.glyphs, p.2.length = 16)
    (l : List Char) : ∀ p ∈ (bdfStep s l).glyphs, p.2.length = 16 := by
  dsimp only [bdfStep]
  split_ifs <;>
    first
      | exact hs
      | (cases s.enc <;>
          first
            | exact hs
            | exact dictInsert_forall (fun g => g.length = 16) hs (finalizeGlyph_length s.rows))

theorem runLines_glyphs_len :
    ∀ (ls : List (List Char)) (s : BdfSt), (∀ p ∈ s.glyphs, p.2.length = 16) →
      ∀ p ∈ (runLines ls s).glyphs, p.2.length = 16 := by
  intro ls
  induction ls with
  | nil => intro s hs; exact hs
  | cons l t ih =>
    intro s hs
    exact ih (bdfStep s l) (bdfStep_glyphs_len hs l)

/-- Effect of one `ENDCHAR` line on the parser state: the glyph built from
the collected rows is stored iff a codepoint is pending and a `BITMAP`
marker had started collection; the pending codepoint and the collection
state are always cleared. -/
theorem bdfStep_endchar (s : BdfSt) :
    bdfStep s "ENDCHAR".data =
      ⟨(match s.enc with
        | some e => if s.collecting then dictInsert s.glyphs e (finalizeGlyph s.rows)
                    else s.glyphs
        | none => s.glyphs), none, false, []⟩ := rfl

theorem bdfStep_no_enc {s : BdfSt} {l : List Char} (henc : s.enc = none)
    (hl : "ENCODING ".data.isPrefixOf (strip l) = false) :
    (bdfStep s l).glyphs = s.glyphs ∧ (bdfStep s l).enc = none := by
  dsimp only [bdfStep]
  rw [if_neg (by simp [hl])]
  split_ifs <;>
    first
      | exact ⟨rfl, henc⟩
      | (rw [henc]; exact ⟨rfl, rfl⟩)

theorem runLines_no_enc :
    ∀ (mid : List (List Char)) (s : BdfSt), s.enc = none →
      (∀ l ∈ mid, "ENCODING ".data.isPrefixOf (strip l) = false) →
      (runLines mid s).glyphs = s.glyphs ∧ (runLines mid s).enc = none := by
  intro mid
  induction mid with
  | nil => intro s h _; exact ⟨rfl, h⟩
  | cons l ls ih =>
    intro s henc hmid
    have hstep := bdfStep_no_enc henc (hmid l (List.mem_cons_self l ls))
    have hrest := ih (bdfStep s l) hstep.2 (fun x hx => hmid x (List.mem_cons_of_mem l hx))
    exact ⟨hstep.1.symm ▸ hrest.1, hrest.2⟩

/-! ### Claims about the BDF parser -/

/-- Claim C4: for every primary-format input, every glyph stored in the
returned mapping of the parser has exactly 16 bytes; when a character definition
collects `n < 16` valid row bytes the remaining `16 - n` bytes are zero, and
rows beyond index 16 are ignored (the stored glyph depends only on the first
16 collected rows). -/
theorem C4_bdf_glyph_len :
    (∀ (lines : List (List Char)) (cp : Int) (g : Glyph),
      dictFind (parse_bdf lines) cp = some g → g.length = 16) ∧
    (∀ rows : List (List Char),
      (finalizeGlyph rows).length = 16 ∧
      (∀ k, rows.length ≤ k → k < 16 → (finalizeGlyph rows).getD k 1 = 0) ∧
      finalizeGlyph rows = finalizeGlyph (rows.take 16)) := by
  constructor
  · intro lines cp g hfind
    exact runLines_glyphs_len lines initSt (by intro p hp; simp [initSt] at hp)
      (cp, g) (dictFind_mem hfind)
  · intro rows
    refine ⟨finalizeGlyph_length rows, ?_, ?_⟩
    · intro k hk hk16
      have hlen : ((rows.take 16).map (fun r => hexVal r % 256)).length = min 16 rows.length := by
        rw [List.length_map, List.length_take]
      have hge : ((rows.take 16).map (fun r => hexVal r % 256)).length ≤ k := by omega
      simp only [finalizeGlyph, List.getD_eq_getElem?_getD, List.getElem?_append_right hge,
        List.getElem?_replicate]
      rw [if_pos (by omega)]
      rfl
    · simp [finalizeGlyph, List.take_take]

/-- Witness for C4: the glyph stored for the single definition
`ENCODING 65 / BITMAP / FF / ENDCHAR` has 16 bytes. -/
theorem C4_bdf_glyph_len_witness :
    (([255, 0, 0, 0, 0, 0, 0, 0, 0, 0, 0, 0, 0, 0, 0, 0] : Glyph)).length = 16 :=
  C4_bdf_glyph_len.1 ["ENCODING 65".data, "BITMAP".data, "FF".data, "ENDCHAR".data]
    65 _ (by decide)

/-- Counterexample to claim C5: in `ENCODING 65` directly followed by
`ENDCHAR` (no `BITMAP` marker), the codepoint 65 is parsed and pending at
the terminating marker line, yet the glyph is discarded: the mapping stays
empty, while the claim requires a glyph to be stored under 65. -/
theorem C5_endchar_cex :
    (runLines ["ENCODING 65".data] initSt).enc = some 65 ∧
    parse_bdf ["ENCODING 65".data, "ENDCHAR".data] = [] := by decide

/-- Claim C5 as amended: at every terminating marker line the
(truncated/zero-padded) glyph is stored under the pending codepoint only
when a codepoint was parsed AND a `BITMAP` marker had started collection;
otherwise (no codepoint, or no `BITMAP` since the last reset) it is
discarded; the pending codepoint and collection state are cleared either
way. -/
theorem C5_endchar_amended (pre post : List (List Char)) :
    runLines (pre ++ "ENDCHAR".data :: post) initSt =
      runLines post
        { glyphs :=
            (match (runLines pre initSt).enc with
             | some e =>
               if (runLines pre initSt).collecting then
                 dictInsert (runLines pre initSt).glyphs e
                   (finalizeGlyph (runLines pre initSt).rows)
               else (runLines pre initSt).glyphs
             | none => (runLines pre initSt).glyphs)
          enc := none
          collecting := false
          rows := [] } := by
  have hsplit : runLines (pre ++ "ENDCHAR".data :: post) initSt
      = runLines post (bdfStep (runLines pre initSt) "ENDCHAR".data) := by
    rw [runLines, List.foldl_append]
    rfl
  rw [hsplit, bdfStep_endchar]

/-- Witness instantiating the amended C5 at a concrete definition. -/
theorem C5_endchar_amended_witness :
    runLines (["ENCODING 65".data, "BITMAP".data, "FF".data] ++ "ENDCHAR".data :: []) initSt =
      runLines []
        { glyphs :=
            (match (runLines ["ENCODING 65".data, "BITMAP".data, "FF".data] initSt).enc with
             | some e =>
               if (runLines ["ENCODING 65".data, "BITMAP".data, "FF".data] initSt).collecting then
                 dictInsert (runLines ["ENCODING 65".data, "BITMAP".data, "FF".data] initSt).glyphs e
                   (finalizeGlyph (runLines ["ENCODING 65".data, "BITMAP".data, "FF".data] initSt).rows)
               else (runLines ["ENCODING 65".data, "BITMAP".data, "FF".data] initSt).glyphs
             | none => (runLines ["ENCODING 65".data, "BITMAP".data, "FF".data] initSt).glyphs)
          enc := none
          collecting := false
          rows := [] } :=
  C5_endchar_amended ["ENCODING 65".data, "BITMAP".data, "FF".data] []

/-- Claim C10: the terminating marker line always clears the pending
codepoint: after any `ENDCHAR`, a stretch of lines containing no
`ENCODING ` line (whatever `BITMAP`/row/`ENDCHAR` lines it contains) never
stores any glyph, in particular none under the codepoint of the previous definition. -/
theorem C10_endchar_clears (pre mid : List (List Char))
    (hmid : ∀ l ∈ mid, "ENCODING ".data.isPrefixOf (strip l) = false) :
    (runLines (pre ++ "ENDCHAR".data :: mid) initSt).glyphs
      = (runLines (pre ++ ["ENDCHAR".data]) initSt).glyphs := by
  have hsplit : runLines (pre ++ "ENDCHAR".data :: mid) initSt
      = runLines mid (runLines (pre ++ ["ENDCHAR".data]) initSt) := by
    have happ : pre ++ "ENDCHAR".data :: mid = (pre ++ ["ENDCHAR".data]) ++ mid := by
      simp
    rw [happ, runLines, List.foldl_append]
    rfl
  have henc : (runLines (pre ++ ["ENDCHAR".data]) initSt).enc = none := by
    rw [runLines, List.foldl_append]
    show (bdfStep (runLines pre initSt) "ENDCHAR".data).enc = none
    rw [bdfStep_endchar]
  rw [hsplit]
  exact (runLines_no_enc mid _ henc hmid).1

/-- Witness for C10: a `BITMAP`/`FF`/`ENDCHAR` block with no `ENCODING` of
its own, after a complete definition, stores nothing new. -/
theorem C10_endchar_clears_witness :
    (runLines (["ENCODING 65".data, "BITMAP".data, "FF".data] ++ "ENDCHAR".data ::
        ["BITMAP".data, "AA".data, "ENDCHAR".data]) initSt).glyphs
      = (runLines (["ENCODING 65".data, "BITMAP".data, "FF".data] ++ ["ENDCHAR".data])
          initSt).glyphs :=
  C10_endchar_clears ["ENCODING 65".data, "BITMAP".data, "FF".data]
    ["BITMAP".data, "AA".data, "ENDCHAR".data] (by decide)

/-! ### Claims about the table builder -/

/-- Claim C1: for a primary-format (`.bdf`) source, the built glyph table
has, for every codepoint 0-255: the glyph of the primary parser when that
codepoint is present in the primary mapping; otherwise the fallback legacy
glyph of the fallback table at that codepoint when the fallback parsed successfully;
otherwise an all-zero glyph of 16 bytes of 0x00. -/
theorem C1_bdf_merge (srcPath : String) (srcLines : List (List Char))
    (fb : Option (List (List Char))) (cp : Nat)
    (hext : lowerExt srcPath = ".bdf".data) (hcp : cp < 256) :
    (build_glyph_table srcPath (some srcLines) fb).toOption.map (fun p => p.1[cp]?) =
      some (some (match dictFind (parse_bdf srcLines) (Int.ofNat cp) with
        | some g => g
        | none =>
          match parse_asm fb with
          | some t => t.getD cp (List.replicate 16 0)
          | none => List.replicate 16 0)) := by
  simp only [build_glyph_table, hext, if_pos, Except.toOption, Option.map_some']
  rw [List.getElem?_map]
  rw [show (List.range 256)[cp]? = some cp by simp [List.getElem?_range, hcp]]
  dsimp only [Option.map]
  cases hfind : dictFind (parse_bdf srcLines) (Int.ofNat cp) with
  | some g => rfl
  | none =>
    cases hfb : parse_asm fb with
    | none => rfl
    | some t =>
      have hlen := (parse_asm_some_spec hfb).1
      have hne : pyTruthyTable (some t) = true := by
        cases t with
        | nil => simp at hlen
        | cons a l => rfl
      have hcp' : cp < t.length := by omega
      simp only [hne, hcp', and_true, if_pos, true_and]
      congr 1
      have hget : t[cp]? = some (t.getD cp []) := by
        rw [List.getD_eq_getElem?_getD, List.getElem?_eq_getElem hcp', Option.getD_some]
      rw [List.getD_eq_getElem?_getD, List.getD_eq_getElem?_getD, hget]
      rfl

/-- Witness for C1: a source defining only codepoint 65, no fallback file;
the table entry 65 is looked up in the primary mapping. -/
theorem C1_bdf_merge_witness :
    (build_glyph_table "font.bdf"
        (some ["ENCODING 65".data, "BITMAP".data, "FF".data, "ENDCHAR".data])
        none).toOption.map (fun p => p.1[65]?) =
      some (some (match dictFind (parse_bdf
          ["ENCODING 65".data, "BITMAP".data, "FF".data, "ENDCHAR".data]) (Int.ofNat 65) with
        | some g => g
        | none =>
          match parse_asm none with
          | some t => t.getD 65 (List.replicate 16 0)
          | none => List.replicate 16 0)) :=
  C1_bdf_merge "font.bdf" ["ENCODING 65".data, "BITMAP".data, "FF".data, "ENDCHAR".data]
    none 65 (by decide) (by decide)

/-- Claim C7: when the source file has the legacy `.asm` extension and the
legacy parser yields no complete 4096-row table, the program terminates with
nonzero status and a diagnostic; the output file is never opened, so nothing
is written (no partial or blank table). -/
theorem C7_asm_fatal (prog src out : String) (rest : List String)
    (fs : String → Option (List (List Char)))
    (hext : lowerExt src = ".asm".data)
    (hparse : parse_asm (fs src) = none) :
    mainRun (prog :: src :: out :: rest) fs =
      ⟨1, some "Failed to parse ASM font table", none⟩ := by
  simp [mainRun, build_glyph_table, hext, hparse]

/-- Witness for C7: a legacy-only source with just ten valid rows exits with
status 1 and writes nothing. -/
theorem C7_asm_fatal_witness :
    mainRun ["gen_spleen.py", "f.asm", "out.c"]
      (fun p => if p = "f.asm"
        then some ("spleen:".data :: List.replicate 10 "db 00000000b".data)
        else none) =
      ⟨1, some "Failed to parse ASM font table", none⟩ :=
  C7_asm_fatal "gen_spleen.py" "f.asm" "out.c" []
    (fun p => if p = "f.asm"
      then some ("spleen:".data :: List.replicate 10 "db 00000000b".data)
      else none)
    (by decide) (by decide)

/-- Claim C8: for every source path whose (lowercased) extension is neither
`.bdf` nor `.asm`, the program stops with a fatal diagnostic naming the
unsupported extension and exit status 1, before the output file is opened,
so no partial output is written. -/
theorem C8_ext_fatal (prog src out : String) (rest : List String)
    (fs : String → Option (List (List Char)))
    (h1 : lowerExt src ≠ ".bdf".data) (h2 : lowerExt src ≠ ".asm".data) :
    mainRun (prog :: src :: out :: rest) fs =
      ⟨1, some ("Unsupported source extension: " ++ String.mk (lowerExt src)), none⟩ := by
  simp only [mainRun, build_glyph_table]
  rw [if_neg h1, if_neg h2]

/-- Witness for C8: a `.txt` source is rejected with its extension named in
the diagnostic, and nothing is written. -/
theorem C8_ext_fatal_witness :
    mainRun ["gen_spleen.py", "font.txt", "out.c"] (fun _ => none) =
      ⟨1, some ("Unsupported source extension: " ++ String.mk (lowerExt "font.txt")), none⟩ :=
  C8_ext_fatal "gen_spleen.py" "font.txt" "out.c" [] (fun _ => none)
    (by decide) (by decide)

/-- Claim C9: the program is deterministic: two runs given identical
source-file and fallback-file contents (including identical
presence/absence) and identical arguments produce byte-identical outputs.
In the embedding every run is the pure function `mainRun` of the argument
vector and the file-system contents, so equal inputs give equal outcomes
(exit code, diagnostic, and emitted bytes). -/
theorem C9_deterministic (argv1 argv2 : List String)
    (fs1 fs2 : String → Option (List (List Char)))
    (hargv : argv1 = argv2) (hfs : ∀ p, fs1 p = fs2 p) :
    mainRun argv1 fs1 = mainRun argv2 fs2 := by
  subst hargv
  rw [funext hfs]

/-- Witness for C9 at a concrete invocation. -/
theorem C9_deterministic_witness :
    mainRun ["gen_spleen.py", "f.asm", "out.c"] (fun _ => none) =
      mainRun ["gen_spleen.py", "f.asm", "out.c"] (fun _ => none) :=
  C9_deterministic ["gen_spleen.py", "f.asm", "out.c"] ["gen_spleen.py", "f.asm", "out.c"]
    (fun _ => none) (fun _ => none) rfl (fun _ => rfl)

/-! ### Lemmas for the all-codepoints BDF input and the all-zero ASM input -/

theorem dictFind_insert (d : List (Int × Glyph)) (k k' : Int) (v : Glyph) :
    dictFind (dictInsert d k v) k' = if k = k' then some v else dictFind d k' := by
  induction d with
  | nil =>
    by_cases h : k = k' <;> simp [dictInsert, dictFind, h]
  | cons q t ih =>
    obtain ⟨a, b⟩ := q
    simp only [dictInsert]
    by_cases hak : a = k
    · subst hak
      simp only [if_pos rfl, dictFind]
      by_cases hk' : a = k' <;> simp [hk']
    · rw [if_neg hak]
      simp only [dictFind]
      by_cases hak' : a = k'
      · have hkk' : ¬k = k' := fun h => hak (hak'.trans h.symm)
        rw [if_pos hak', if_neg hkk', if_pos hak']
      · rw [if_neg hak', if_neg hak', ih]

theorem dictFind_bdfDict : ∀ n : Nat, ∀ cp : Nat, cp < n →
    dictFind (bdfDict n) (Int.ofNat cp) = some (finalizeGlyph []) := by
  intro n
  induction n with
  | zero => intro cp h; omega
  | succ n ih =>
    intro cp hcp
    simp only [bdfDict, dictFind_insert]
    by_cases h : cp = n
    · rw [if_pos (by rw [h])]
    · rw [if_neg (fun hh => h (Int.ofNat.inj hh).symm)]
      exact ih cp (by omega)

theorem encLine_core : ∀ n ∈ List.range 256,
    ("ENCODING ".data.isPrefixOf (strip (encLine n)) = true) ∧
    ((match (pysplit (strip (encLine n)))[1]? with
      | some t => pyIntTok t
      | none => none) = some (Int.ofNat n)) := by decide

theorem bdfStep_encLine {n : Nat} (hn : n < 256) (s : BdfSt) :
    bdfStep s (encLine n) = { s with enc := some (Int.ofNat n) } := by
  have h := encLine_core n (List.mem_range.mpr hn)
  dsimp only [bdfStep]
  rw [if_pos h.1, h.2]

theorem runLines_bdfBlock {n : Nat} (hn : n < 256) (d : List (Int × Glyph)) :
    runLines (bdfBlock n) ⟨d, none, false, []⟩ =
      ⟨dictInsert d (Int.ofNat n) (finalizeGlyph []), none, false, []⟩ := by
  rw [show runLines (bdfBlock n) ⟨d, none, false, []⟩
      = bdfStep (bdfStep (bdfStep ⟨d, none, false, []⟩ (encLine n)) "BITMAP".data)
          "ENDCHAR".data from rfl,
    bdfStep_encLine hn]
  rfl

theorem runLines_range_blocks : ∀ n : Nat, n ≤ 256 →
    runLines ((List.range n).flatMap bdfBlock) initSt = ⟨bdfDict n, none, false, []⟩ := by
  intro n
  induction n with
  | zero => intro _; rfl
  | succ n ih =>
    intro hn
    have happ : (List.range (n + 1)).flatMap bdfBlock
        = (List.range n).flatMap bdfBlock ++ bdfBlock n := by
      rw [List.range_succ, List.flatMap_append]
      simp
    rw [happ, runLines, List.foldl_append, ← runLines, ← runLines, ih (by omega),
      runLines_bdfBlock (by omega) (bdfDict n)]
    rfl

theorem parse_bdf_fullBdfLines : parse_bdf fullBdfLines = bdfDict 256 := by
  rw [parse_bdf, fullBdfLines, runLines_range_blocks 256 (by omega)]

theorem parse_asm_fullAsm_isSome : parse_asm (some fullAsmLines) ≠ none := by
  have hm : afterMarker fullAsmLines = some (List.replicate 4096 "db 00000000b".data) := rfl
  have hfm := filterMap_replicate_some rowMatch "db 00000000b".data 0 (by decide) 4096
  simp only [parse_asm, hm, hfm, List.take_replicate, Nat.min_self, List.length_replicate]
  intro h
  rw [if_pos trivial] at h
  exact Option.noConfusion h

/-- Generic unfolding of the `.bdf` branch of `build_glyph_table`. -/
theorem build_bdf_eq (srcPath : String) (srcLines : List (List Char))
    (fb : Option (List (List Char))) (hext : lowerExt srcPath = ".bdf".data) :
    build_glyph_table srcPath (some srcLines) fb =
      .ok ((List.range 256).map (fun cp =>
        match dictFind (parse_bdf srcLines) (Int.ofNat cp) with
        | some g => g
        | none =>
          match parse_asm fb with
          | some t => if pyTruthyTable (some t) = true ∧ cp < t.length then t.getD cp []
                      else List.replicate 16 0
          | none => List.replicate 16 0),
        srcPath ++ " (BDF)" ++
          (if pyTruthyTable (parse_asm fb) then " + ASM fallback" else "")) := by
  simp only [build_glyph_table, hext, if_pos]

/-- Counterexample to claim C6: a primary source defining all 256 codepoints
together with a complete fallback file.  The emitted Source Descriptor
carries the fallback tag, yet the fallback contributes nothing: the built
table is identical to the one built with no fallback file at all. -/
theorem C6_desc_cex :
    (build_glyph_table "font.bdf" (some fullBdfLines) (some fullAsmLines)).toOption.map
        Prod.snd = some "font.bdf (BDF) + ASM fallback" ∧
    (build_glyph_table "font.bdf" (some fullBdfLines) (some fullAsmLines)).toOption.map
        Prod.fst =
      (build_glyph_table "font.bdf" (some fullBdfLines) none).toOption.map Prod.fst := by
  have hext : lowerExt "font.bdf" = ".bdf".data := by decide
  cases hfb : parse_asm (some fullAsmLines) with
  | none => exact absurd hfb parse_asm_fullAsm_isSome
  | some t =>
    have hlen := (parse_asm_some_spec hfb).1
    have htruthy : pyTruthyTable (some t) = true := by
      cases t with
      | nil => simp at hlen
      | cons a l => rfl
    rw [build_bdf_eq "font.bdf" fullBdfLines (some fullAsmLines) hext,
      build_bdf_eq "font.bdf" fullBdfLines none hext, hfb]
    refine ⟨?_, ?_⟩
    · dsimp only [Except.toOption, Option.map]
      rw [htruthy]
      rfl
    · dsimp only [Except.toOption, Option.map]
      refine congrArg some (List.map_congr_left ?_)
      intro cp hcp
      rw [List.mem_range] at hcp
      rw [parse_bdf_fullBdfLines, dictFind_bdfDict 256 cp hcp]

/-- Claim C6 as amended: for a primary-format source, the Source Descriptor
notes fallback if and only if the fallback file parsed successfully to a
full legacy table (fallback data available) — regardless of whether any of
it was used; in particular, when no fallback file is present the header
notes no fallback contribution. -/
theorem C6_desc_amended (srcPath : String) (srcLines : List (List Char))
    (fb : Option (List (List Char)))
    (hext : lowerExt srcPath = ".bdf".data) :
    (((build_glyph_table srcPath (some srcLines) fb).toOption.map Prod.snd =
        some (srcPath ++ " (BDF) + ASM fallback")) ↔ (parse_asm fb).isSome = true) ∧
    (fb = none →
      (build_glyph_table srcPath (some srcLines) fb).toOption.map Prod.snd =
        some (srcPath ++ " (BDF)")) := by
  have hassoc : srcPath ++ " (BDF)" ++ " + ASM fallback"
      = srcPath ++ " (BDF) + ASM fallback" := by
    rw [String.append_assoc]
    rfl
  have hlen6 : (srcPath ++ " (BDF)").length ≠ (srcPath ++ " (BDF) + ASM fallback").length := by
    have e1 : " (BDF)".length = 6 := rfl
    have e2 : " (BDF) + ASM fallback".length = 21 := rfl
    simp only [String.length_append, e1, e2]
    omega
  have hne : srcPath ++ " (BDF)" ≠ srcPath ++ " (BDF) + ASM fallback" :=
    fun h => hlen6 (congrArg String.length h)
  refine ⟨?_, ?_⟩
  · cases hfb : parse_asm fb with
    | none =>
      simp only [build_glyph_table, hext, if_pos, hfb, Except.toOption, Option.map_some',
        pyTruthyTable, if_false, Option.isSome_none, Bool.false_eq_true, iff_false]
      intro h
      obtain hdesc := Option.some.inj h
      rw [String.append_empty] at hdesc
      exact hne hdesc
    | some t =>
      have hlen := (parse_asm_some_spec hfb).1
      have htruthy : pyTruthyTable (some t) = true := by
        cases t with
        | nil => simp at hlen
        | cons a l => rfl
      simp only [build_glyph_table, hext, if_pos, hfb, htruthy, Except.toOption,
        Option.map_some', if_true, Option.isSome_some, hassoc]
  · intro hfbnone
    subst hfbnone
    simp only [build_glyph_table, hext, if_pos, Except.toOption, Option.map_some']
    rw [show parse_asm none = none from rfl]
    simp only [pyTruthyTable, Bool.false_eq_true, if_false]
    rw [String.append_empty]

/-- Witness instantiating the amended C6: with no fallback file, the
descriptor is the bare primary tag. -/
theorem C6_desc_amended_witness :
    (build_glyph_table "font.bdf" (some []) none).toOption.map Prod.snd
      = some ("font.bdf" ++ " (BDF)") :=
  (C6_desc_amended "font.bdf" [] none (by decide)).2 rfl

end GenSpleen
